import Mathlib

/-!
Verification of the geometry core of the libaoc repository: directions and
rotations, grid bounds with clipping, neighbor enumeration, beam traversal,
and Chebyshev offset enumeration.  All machine integers in the source are
64-bit signed and are modelled as unbounded Int; the generic conversion
layer is the identity on values it accepts.
-/

namespace Aoc

/-- Symbolic direction constants, mirroring enum Dirn in dirns.rs. -/
inductive Dirn : Type
  | Up
  | Left
  | Down
  | Right
deriving DecidableEq, Repr

/-- Rotation directions, mirroring enum Rot in dirns.rs. -/
inductive Rot : Type
  | CCW
  | CW
deriving DecidableEq, Repr

/-- Discriminant values of the Dirn enum (Up = 0, Left = 1, Down = 2, Right = 3). -/
def Dirn.toIdx : Dirn → Nat
  | .Up => 0
  | .Left => 1
  | .Down => 2
  | .Right => 3

/-- Displacements induced by the cardinal directions, mirroring DIRNS. -/
def DIRNS : List (Int × Int) := [(-1, 0), (0, -1), (1, 0), (0, 1)]

/-- The possible facings, mirroring FACINGS. -/
def FACINGS : List Dirn := [.Up, .Left, .Down, .Right]

/-- Indexing into FACINGS modulo its length, as the source does with
the expression FACINGS[(self as usize + offset) % nfacings]. -/
def facingAt (n : Nat) : Dirn :=
  FACINGS.get ⟨n % 4, by rw [show FACINGS.length = 4 from rfl]; omega⟩

/-- Direction resulting from turning 90 degrees in the given rotation
direction the given number of times, mirroring Dirn::turn in dirns.rs. -/
def Dirn.turn (d : Dirn) (rot : Rot) (steps : Int) : Dirn :=
  let steps2 : Int := if steps < 0 then (4 - (-steps) % 4) % 4 else steps
  let stepsN : Nat := steps2.toNat
  let offset : Nat :=
    match rot with
    | .CCW => stepsN % 4
    | .CW => (3 * stepsN) % 4
  facingAt (d.toIdx + offset)

/-- The turn operation as the specification words it: the count is first
normalized to a non-negative residue mod 4 (via ((4 - (-count mod 4)) mod 4)
when negative), the offset is the normalized count mod 4 for CCW and
(3 * count) mod 4 for CW, and the result is the FACINGS entry at
(index + offset) mod 4. -/
def turnSpec (d : Dirn) (rot : Rot) (count : Int) : Dirn :=
  let normalized : Int := if count < 0 then (4 - (-count) % 4) % 4 else count % 4
  let offset : Nat :=
    match rot with
    | .CCW => normalized.toNat % 4
    | .CW => (3 * normalized.toNat) % 4
  facingAt (d.toIdx + offset)

theorem facingAt_congr {a b : Nat} (h : a % 4 = b % 4) : facingAt a = facingAt b := by
  unfold facingAt
  exact congrArg FACINGS.get (Fin.ext h)

theorem turn_eq_turnSpec (d : Dirn) (r : Rot) (k : Int) :
    d.turn r k = turnSpec d r k := by
  unfold Dirn.turn turnSpec
  cases r <;>
    · dsimp only
      apply facingAt_congr
      split_ifs <;> omega

theorem turn_emod (d : Dirn) (r : Rot) (k : Int) :
    d.turn r k = d.turn r (k % 4) := by
  unfold Dirn.turn
  cases r <;>
    · dsimp only
      apply facingAt_congr
      split_ifs <;> omega

theorem turn_zero (d : Dirn) (r : Rot) : d.turn r 0 = d := by
  cases d <;> cases r <;> decide

/-- Description of the grid, for possible clipping, mirroring enum GridBox
in neighbors.rs. -/
inductive GridBox : Type
  | ClipBox : Int × Int → GridBox
  | Unclipped : GridBox
deriving DecidableEq, Repr

/-- Create a clip box, mirroring GridBox::new.  The generic conversion is
the identity on the mathematical value, so the given sizes are stored
unchanged. -/
def GridBox.new (row_size col_size : Int) : GridBox :=
  .ClipBox (row_size, col_size)

/-- Create an unbounded clip box, mirroring GridBox::new_grid. -/
def GridBox.new_grid : GridBox :=
  .Unclipped

/-- Return the source location adjusted by the given offset iff the
destination is in-bounds, mirroring GridBox::clip in neighbors.rs. -/
def GridBox.clip (b : GridBox) (loc off : Int × Int) : Option (Int × Int) :=
  let nr := loc.1 + off.1
  let nc := loc.2 + off.2
  if nr < 0 ∨ nc < 0 then none
  else
    match b with
    | .ClipBox (row_size, col_size) =>
        if nr ≥ row_size ∨ nc ≥ col_size then none else some (nr, nc)
    | .Unclipped => some (nr, nc)

/-- In-bounds predicate as the specification words it: row and column are
non-negative, and strictly below the stored sizes when the bound is clipped. -/
def inBounds : GridBox → Int × Int → Prop
  | .ClipBox bc, q => 0 ≤ q.1 ∧ 0 ≤ q.2 ∧ q.1 < bc.1 ∧ q.2 < bc.2
  | .Unclipped, q => 0 ≤ q.1 ∧ 0 ≤ q.2

instance (b : GridBox) (q : Int × Int) : Decidable (inBounds b q) := by
  cases b <;> (unfold inBounds; infer_instance)

theorem clip_eq (b : GridBox) (loc off : Int × Int) :
    b.clip loc off =
      if inBounds b (loc.1 + off.1, loc.2 + off.2)
      then some (loc.1 + off.1, loc.2 + off.2)
      else none := by
  cases b with
  | ClipBox bc =>
      obtain ⟨rows, cols⟩ := bc
      simp only [GridBox.clip, inBounds]
      split_ifs <;> first | rfl | (exfalso; omega)
  | Unclipped =>
      simp only [GridBox.clip, inBounds]
      split_ifs <;> first | rfl | (exfalso; omega)

/-- The list of integers from lo (inclusive) to hi (exclusive), modelling
an ascending Rust integer range. -/
def intRange (lo hi : Int) : List Int :=
  (List.range (hi - lo).toNat).map (fun i : Nat => lo + (i : Int))

theorem intRange_eq_nil {lo hi : Int} (h : hi ≤ lo) : intRange lo hi = [] := by
  unfold intRange
  rw [show (hi - lo).toNat = 0 by omega]
  rfl

theorem intRange_eq_cons {lo hi : Int} (h : lo < hi) :
    intRange lo hi = lo :: intRange (lo + 1) hi := by
  unfold intRange
  rw [show (hi - lo).toNat = (hi - (lo + 1)).toNat + 1 by omega,
    List.range_succ_eq_map, List.map_cons]
  refine congrArg₂ List.cons (by push_cast; ring) ?_
  rw [List.map_map]
  refine List.map_congr_left ?_
  intro i _
  simp only [Function.comp_apply, Nat.succ_eq_add_one]
  push_cast
  ring

theorem mem_intRange {x lo hi : Int} : x ∈ intRange lo hi ↔ lo ≤ x ∧ x < hi := by
  unfold intRange
  simp only [List.mem_map, List.mem_range]
  constructor
  · rintro ⟨i, hi2, rfl⟩
    omega
  · rintro ⟨h1, h2⟩
    exact ⟨(x - lo).toNat, by omega, by omega⟩

theorem length_intRange (lo hi : Int) : (intRange lo hi).length = (hi - lo).toNat := by
  unfold intRange
  simp

theorem pairwise_intRange (lo hi : Int) : (intRange lo hi).Pairwise (· < ·) := by
  unfold intRange
  refine List.Pairwise.map _ ?_ (List.pairwise_lt_range _)
  intro a b hab
  omega

/-- Row-major order on coordinate pairs: earlier row, or same row and
earlier column. -/
def rowMajorLT (p q : Int × Int) : Prop :=
  p.1 < q.1 ∨ (p.1 = q.1 ∧ p.2 < q.2)

/-- The points of the half-open window [s.1, e.1) x [s.2, e.2) enumerated
in row-major order, as the specification describes the neighbor window. -/
def windowRowMajor (s e : Int × Int) : List (Int × Int) :=
  (intRange s.1 e.1).flatMap (fun r => (intRange s.2 e.2).map (fun c => (r, c)))

theorem mem_windowRowMajor {q s e : Int × Int} :
    q ∈ windowRowMajor s e ↔ s.1 ≤ q.1 ∧ q.1 < e.1 ∧ s.2 ≤ q.2 ∧ q.2 < e.2 := by
  unfold windowRowMajor
  simp only [List.mem_flatMap, List.mem_map, mem_intRange]
  constructor
  · rintro ⟨r, hr, c, hc, rfl⟩
    exact ⟨hr.1, hr.2, hc.1, hc.2⟩
  · rintro ⟨h1, h2, h3, h4⟩
    exact ⟨q.1, ⟨h1, h2⟩, q.2, ⟨h3, h4⟩, rfl⟩

theorem pairwise_flatMap_rowMajor (rows : List Int) (hrows : rows.Pairwise (· < ·))
    (s2 e2 : Int) :
    (rows.flatMap (fun r => (intRange s2 e2).map (fun c => (r, c)))).Pairwise rowMajorLT := by
  induction rows with
  | nil => simp
  | cons a l ih =>
      rcases hrows with _ | ⟨ha, hl⟩
      rw [List.flatMap_cons, List.pairwise_append]
      refine ⟨?_, ih hl, ?_⟩
      · rw [List.pairwise_map]
        refine (pairwise_intRange s2 e2).imp ?_
        intro x y hxy
        exact Or.inr ⟨rfl, hxy⟩
      · rintro x hx y hy
        simp only [List.mem_map] at hx
        simp only [List.mem_flatMap, List.mem_map] at hy
        obtain ⟨cx, -, rfl⟩ := hx
        obtain ⟨r, hr, cy, -, rfl⟩ := hy
        exact Or.inl (ha r hr)

theorem pairwise_windowRowMajor (s e : Int × Int) :
    (windowRowMajor s e).Pairwise rowMajorLT :=
  pairwise_flatMap_rowMajor _ (pairwise_intRange _ _) _ _

theorem rowMajorLT_ne {p q : Int × Int} (h : rowMajorLT p q) : p ≠ q := by
  rintro rfl
  rcases h with h | ⟨-, h⟩ <;> omega

theorem nodup_windowRowMajor (s e : Int × Int) : (windowRowMajor s e).Nodup :=
  (pairwise_windowRowMajor s e).imp rowMajorLT_ne

theorem length_flatMap_const {α β : Type} (l : List α) (f : α → List β) (n : Nat)
    (h : ∀ a ∈ l, (f a).length = n) : (l.flatMap f).length = l.length * n := by
  induction l with
  | nil => simp
  | cons a l ih =>
      rw [List.flatMap_cons, List.length_append, h a (by simp),
        ih (fun b hb => h b (by simp [hb])), List.length_cons]
      ring

theorem length_windowRowMajor (s e : Int × Int) :
    (windowRowMajor s e).length = (e.1 - s.1).toNat * (e.2 - s.2).toNat := by
  unfold windowRowMajor
  rw [length_flatMap_const _ _ (e.2 - s.2).toNat (fun r _ => by simp [length_intRange]),
    length_intRange]

/-- State of the neighbors iterator, mirroring struct Neighbors in
neighbors.rs (origin, current location, upper-left corner, lower-right
corner). -/
structure Neighbors where
  orig : Int × Int
  loc : Int × Int
  start : Int × Int
  stop : Int × Int
deriving DecidableEq, Repr

/-- Construction of the neighbors iterator, mirroring Neighbors::new in
neighbors.rs; the assert on dist is modelled by returning none. -/
def Neighbors.new (bounds : GridBox) (orig : Int × Int) (dist : Int) :
    Option Neighbors :=
  if dist > 0 then
    let start : Int × Int := (max 0 (orig.1 - dist), max 0 (orig.2 - dist))
    let stop : Int × Int :=
      match bounds with
      | .ClipBox (rows, cols) =>
          (min rows (orig.1 + dist + 1), min cols (orig.2 + dist + 1))
      | .Unclipped => (orig.1 + dist + 1, orig.2 + dist + 1)
    some { orig := orig, loc := start, start := start, stop := stop }
  else none

/-- Checked construction mirroring GridBox::neighbors in neighbors.rs, with
the asserts on the location modelled by returning none. -/
def GridBox.neighbors (b : GridBox) (location : Int × Int) (dist : Int) :
    Option Neighbors :=
  if 0 ≤ location.1 ∧ 0 ≤ location.2 then
    match b with
    | .ClipBox (rows, cols) =>
        if location.1 < rows ∧ location.2 < cols
        then Neighbors.new b location dist
        else none
    | .Unclipped => Neighbors.new b location dist
  else none

/-- Complete unfolding of the Iterator impl for Neighbors in neighbors.rs:
the remaining output of the iterator with origin (orR, orC), window start
column sC, window stop corner (eR, eC), from current location (r, c).  The
four branches are, in source order: skip the origin, stop past the last
row, wrap to the next row, and produce the current point. -/
def nrun (orR orC sC eR eC r c : Int) : List (Int × Int) :=
  if r = orR ∧ c = orC then
    nrun orR orC sC eR eC r (c + 1)
  else if eR ≤ r then
    []
  else if eC ≤ c then
    nrun orR orC sC eR eC (r + 1) sC
  else
    (r, c) :: nrun orR orC sC eR eC r (c + 1)
termination_by
  ((eR - r).toNat, 2 * (eC + 1 - c).toNat + (if r = orR ∧ c = orC then 1 else 0))
decreasing_by
  · apply Prod.Lex.right
    split_ifs <;> omega
  · apply Prod.Lex.left
    omega
  · apply Prod.Lex.right
    split_ifs <;> omega

/-- Output of the neighbors iterator from its current state. -/
def Neighbors.toList (it : Neighbors) : List (Int × Int) :=
  nrun it.orig.1 it.orig.2 it.start.2 it.stop.1 it.stop.2 it.loc.1 it.loc.2

/-- Full output of GridBox::neighbors: none when an assert fires, otherwise
the complete list produced by the returned iterator. -/
def GridBox.neighborsList (b : GridBox) (location : Int × Int) (dist : Int) :
    Option (List (Int × Int)) :=
  (b.neighbors location dist).map Neighbors.toList

/-- Points of the neighbor window not yet visited when the iterator sits
at location (r, c): the rest of the current row, then all later rows. -/
def tailFrom (sC eR eC r c : Int) : List (Int × Int) :=
  if eR ≤ r then []
  else
    ((intRange c eC).map (fun j => (r, j))) ++
      ((intRange (r + 1) eR).flatMap (fun i => (intRange sC eC).map (fun j => (i, j))))

theorem tailFrom_of_ge {eR r : Int} (sC eC c : Int) (h : eR ≤ r) :
    tailFrom sC eR eC r c = [] :=
  if_pos h

theorem tailFrom_of_lt {eR r : Int} (sC eC c : Int) (h : r < eR) :
    tailFrom sC eR eC r c =
      ((intRange c eC).map (fun j => (r, j))) ++
        ((intRange (r + 1) eR).flatMap (fun i => (intRange sC eC).map (fun j => (i, j)))) :=
  if_neg (by omega)

theorem tailFrom_cons {eR eC r c : Int} (sC : Int) (hr : r < eR) (hc : c < eC) :
    tailFrom sC eR eC r c = (r, c) :: tailFrom sC eR eC r (c + 1) := by
  rw [tailFrom_of_lt sC eC c hr, tailFrom_of_lt sC eC (c + 1) hr,
    intRange_eq_cons hc, List.map_cons, List.cons_append]

theorem tailFrom_skipcol {eR eC r c : Int} (sC : Int) (hc : eC ≤ c) :
    tailFrom sC eR eC r c = tailFrom sC eR eC r (c + 1) := by
  by_cases hr : eR ≤ r
  · rw [tailFrom_of_ge sC eC c hr, tailFrom_of_ge sC eC (c + 1) hr]
  · rw [tailFrom_of_lt sC eC c (by omega), tailFrom_of_lt sC eC (c + 1) (by omega),
      intRange_eq_nil hc, intRange_eq_nil (show eC ≤ c + 1 by omega)]

theorem tailFrom_wrap {eR eC r c : Int} (sC : Int) (hr : r < eR) (hc : eC ≤ c) :
    tailFrom sC eR eC r c = tailFrom sC eR eC (r + 1) sC := by
  rw [tailFrom_of_lt sC eC c hr, intRange_eq_nil hc, List.map_nil, List.nil_append]
  by_cases hr2 : eR ≤ r + 1
  · rw [tailFrom_of_ge sC eC sC hr2, intRange_eq_nil hr2, List.flatMap_nil]
  · rw [tailFrom_of_lt sC eC sC (by omega), intRange_eq_cons (by omega : r + 1 < eR),
      List.flatMap_cons]

theorem tailFrom_start_eq_window (sR sC eR eC : Int) :
    tailFrom sC eR eC sR sC = windowRowMajor (sR, sC) (eR, eC) := by
  unfold windowRowMajor
  by_cases hr : eR ≤ sR
  · rw [tailFrom_of_ge sC eC sC hr, intRange_eq_nil hr, List.flatMap_nil]
  · rw [tailFrom_of_lt sC eC sC (by omega), intRange_eq_cons (by omega : sR < eR),
      List.flatMap_cons]

/-- Central characterization of the neighbors iterator: from any location,
the remaining output is the unvisited part of the window with the origin
filtered out. -/
theorem nrun_eq_tailFrom (orR orC sC eR eC r c : Int) :
    nrun orR orC sC eR eC r c =
      (tailFrom sC eR eC r c).filter (fun q => q ≠ (orR, orC)) := by
  refine nrun.induct orR orC sC eR eC
    (fun r c =>
      nrun orR orC sC eR eC r c =
        (tailFrom sC eR eC r c).filter (fun q => q ≠ (orR, orC)))
    ?_ ?_ ?_ ?_ r c
  · intro r c h ih
    rw [nrun, if_pos h, ih]
    by_cases hr : eR ≤ r
    · rw [tailFrom_of_ge sC eC c hr, tailFrom_of_ge sC eC (c + 1) hr]
    · by_cases hc : c < eC
      · rw [tailFrom_cons sC (by omega) hc,
          List.filter_cons_of_neg (by simp [h.1, h.2])]
      · rw [← tailFrom_skipcol sC (show eC ≤ c by omega)]
  · intro r c h1 h2
    rw [nrun, if_neg h1, if_pos h2, tailFrom_of_ge sC eC c h2, List.filter_nil]
  · intro r c h1 h2 h3 ih
    rw [nrun, if_neg h1, if_neg h2, if_pos h3, ih,
      tailFrom_wrap sC (show r < eR by omega) h3]
  · intro r c h1 h2 h3 ih
    rw [nrun, if_neg h1, if_neg h2, if_neg h3, ih,
      show tailFrom sC eR eC r c = (r, c) :: tailFrom sC eR eC r (c + 1) from
        tailFrom_cons sC (by omega) (by omega),
      List.filter_cons_of_pos
        (by simp only [ne_eq, Prod.mk.injEq, decide_eq_true_eq]; exact h1)]

/-- State of the beam iterator, mirroring struct Beam in neighbors.rs:
the clipper, the current location, and the step direction. -/
structure Beam where
  clip : GridBox
  loc : Int × Int
  step : Int × Int
deriving DecidableEq, Repr

/-- Construction of the beam iterator, mirroring Beam::new in neighbors.rs;
the assert on the step is modelled by returning none. -/
def Beam.new (clip : GridBox) (loc step : Int × Int) : Option Beam :=
  if step ≠ (0, 0) then some { clip := clip, loc := loc, step := step }
  else none

/-- Checked construction mirroring GridBox::beam in neighbors.rs, which
performs no check of its own and delegates to Beam::new. -/
def GridBox.beam (b : GridBox) (location step : Int × Int) : Option Beam :=
  Beam.new b location step

/-- One step of the Iterator impl for Beam in neighbors.rs: clip the
current location by the step; on success the clipped point is yielded and
becomes the new current location. -/
def Beam.next (bm : Beam) : Option ((Int × Int) × Beam) :=
  (bm.clip.clip bm.loc bm.step).map (fun l => (l, { bm with loc := l }))

/-- Element n (0-based) of the sequence produced by the beam iterator. -/
def Beam.nth (bm : Beam) : Nat → Option (Int × Int)
  | 0 => (Beam.next bm).map Prod.fst
  | n + 1 =>
      match Beam.next bm with
      | none => none
      | some (_, bm2) => Beam.nth bm2 n

/-- The beam sequence as the specification words it: starting from the
given point, repeatedly apply offset_clip; each success yields the new
point and becomes the new current point, and the first failure terminates
the sequence. -/
def beamSpecSeq (bnd : GridBox) (cur step : Int × Int) : Nat → Option (Int × Int)
  | 0 => bnd.clip cur step
  | n + 1 =>
      match bnd.clip cur step with
      | none => none
      | some nxt => beamSpecSeq bnd nxt step n

/-- The point reached after m applications of the step to p. -/
def pointAt (p step : Int × Int) (m : Int) : Int × Int :=
  (p.1 + m * step.1, p.2 + m * step.2)

theorem beam_nth_eq_specSeq (bnd : GridBox) (p s : Int × Int) (n : Nat) :
    Beam.nth { clip := bnd, loc := p, step := s } n = beamSpecSeq bnd p s n := by
  induction n generalizing p with
  | zero =>
      simp only [Beam.nth, Beam.next, beamSpecSeq]
      cases bnd.clip p s <;> rfl
  | succ n ih =>
      simp only [Beam.nth, Beam.next, beamSpecSeq]
      cases bnd.clip p s with
      | none => rfl
      | some l => simpa using ih l

theorem clip_pointAt (bnd : GridBox) (p s : Int × Int) (m : Int) :
    bnd.clip (pointAt p s m) s =
      if inBounds bnd (pointAt p s (m + 1)) then some (pointAt p s (m + 1)) else none := by
  rw [clip_eq]
  have h1 : (pointAt p s m).1 + s.1 = (pointAt p s (m + 1)).1 := by
    simp only [pointAt]
    ring
  have h2 : (pointAt p s m).2 + s.2 = (pointAt p s (m + 1)).2 := by
    simp only [pointAt]
    ring
  rw [h1, h2]

/-- Closed form for the beam sequence: element n is the point n+1 steps
from the start if every point up to there is in bounds, and nothing
otherwise. -/
theorem beam_nth_eq (bnd : GridBox) (p s : Int × Int) (n : Nat) :
    Beam.nth { clip := bnd, loc := p, step := s } n =
      if ∀ k < n + 1, inBounds bnd (pointAt p s (k + 1))
      then some (pointAt p s (n + 1))
      else none := by
  rw [beam_nth_eq_specSeq]
  suffices key : ∀ (n : Nat) (m : Int),
      beamSpecSeq bnd (pointAt p s m) s n =
        if ∀ k < n + 1, inBounds bnd (pointAt p s (m + k + 1))
        then some (pointAt p s (m + n + 1))
        else none by
    have h0 := key n 0
    rw [show pointAt p s 0 = p by simp [pointAt]] at h0
    rw [h0]
    have hiff : (∀ k : Nat, k < n + 1 → inBounds bnd (pointAt p s (0 + k + 1))) ↔
        (∀ k : Nat, k < n + 1 → inBounds bnd (pointAt p s (k + 1))) := by
      constructor <;>
        · intro h k hk
          have := h k hk
          simpa using this
    rw [show (0 : Int) + (n : Int) + 1 = (n : Int) + 1 by ring]
    split_ifs with h1 h2 h2
    · rfl
    · exact absurd (hiff.mp h1) h2
    · exact absurd (hiff.mpr h2) h1
    · rfl
  intro n
  induction n with
  | zero =>
      intro m
      rw [beamSpecSeq, clip_pointAt]
      have hiff : (∀ k : Nat, k < 0 + 1 → inBounds bnd (pointAt p s (m + k + 1))) ↔
          inBounds bnd (pointAt p s (m + 1)) := by
        constructor
        · intro h
          simpa using h 0 (by omega)
        · intro h k hk
          interval_cases k
          simpa using h
      rw [show m + ((0 : Nat) : Int) + 1 = m + 1 by push_cast; ring]
      split_ifs with h1 h2 h2
      · rfl
      · exact absurd (hiff.mpr h1) h2
      · exact absurd (hiff.mp h2) h1
      · rfl
  | succ n ih =>
      intro m
      rw [beamSpecSeq, clip_pointAt]
      by_cases hm : inBounds bnd (pointAt p s (m + 1))
      · rw [if_pos hm]
        show beamSpecSeq bnd (pointAt p s (m + 1)) s n = _
        rw [ih (m + 1)]
        have hiff : (∀ k : Nat, k < n + 1 →
              inBounds bnd (pointAt p s (m + 1 + k + 1))) ↔
            (∀ k : Nat, k < n + 1 + 1 → inBounds bnd (pointAt p s (m + k + 1))) := by
          constructor
          · intro h k hk
            match k, hk with
            | 0, _ => simpa using hm
            | j + 1, hj =>
                have := h j (by omega)
                rw [show m + 1 + (j : Int) + 1 = m + ((j : Int) + 1) + 1 by ring] at this
                push_cast
                exact this
          · intro h k hk
            have := h (k + 1) (by omega)
            rw [show m + (((k + 1 : Nat)) : Int) + 1 = m + 1 + (k : Int) + 1
              by push_cast; ring] at this
            exact this
        rw [show m + 1 + (n : Int) + 1 = m + (((n + 1 : Nat)) : Int) + 1
          by push_cast; ring]
        split_ifs with h1 h2 h2
        · rfl
        · exact absurd (hiff.mp h1) h2
        · exact absurd (hiff.mpr h2) h1
        · rfl
      · rw [if_neg hm]
        have hnot : ¬∀ k : Nat, k < n + 1 + 1 →
            inBounds bnd (pointAt p s (m + k + 1)) := by
          intro hall
          exact hm (by simpa using hall 0 (by omega))
        rw [if_neg hnot]

/-- The beam sequence is finite: some request returns nothing (and hence
all later ones do). -/
def beamTerminates (bnd : GridBox) (p s : Int × Int) : Prop :=
  ∃ n : Nat, Beam.nth { clip := bnd, loc := p, step := s } n = none

/-- Whether a grid box is of the clipped variant. -/
def isClipBox : GridBox → Prop
  | .ClipBox _ => True
  | .Unclipped => False

theorem beam_not_terminates_iff (bnd : GridBox) (p s : Int × Int) :
    ¬beamTerminates bnd p s ↔ ∀ n : Nat, inBounds bnd (pointAt p s (n + 1)) := by
  unfold beamTerminates
  push_neg
  constructor
  · intro h n
    have hn := h n
    rw [beam_nth_eq] at hn
    by_contra hc
    rw [if_neg] at hn
    · exact hn rfl
    · intro hall
      exact hc (hall n (by omega))
  · intro hall n
    rw [beam_nth_eq, if_pos (fun k _ => hall k)]
    exact Option.some_ne_none _

/-- If a nonzero step kept every multiple inside the band [0, bound) the
step would have to vanish. -/
theorem step_coord_zero {a d bound : Int}
    (h : ∀ n : Nat, 0 ≤ a + ((n : Int) + 1) * d ∧ a + ((n : Int) + 1) * d < bound) :
    d = 0 := by
  by_contra hd
  rcases lt_or_gt_of_ne hd with hneg | hpos
  · have hn := (h a.toNat).1
    have hmul : ((a.toNat : Int) + 1) * d ≤ ((a.toNat : Int) + 1) * (-1) :=
      mul_le_mul_of_nonneg_left (by omega) (by positivity)
    have := Int.self_le_toNat a
    omega
  · have hn := (h (bound - a).toNat).2
    have hmul : ((bound - a).toNat + 1 : Int) * 1 ≤ (((bound - a).toNat : Int) + 1) * d :=
      mul_le_mul_of_nonneg_left (by omega) (by positivity)
    have := Int.self_le_toNat (bound - a)
    omega

/-- A beam with a nonzero step always leaves a clipped grid. -/
theorem clipbox_beam_terminates (bc : Int × Int) (p s : Int × Int)
    (hs : s ≠ (0, 0)) : beamTerminates (.ClipBox bc) p s := by
  by_contra hterm
  rw [beam_not_terminates_iff] at hterm
  simp only [inBounds, pointAt] at hterm
  have h1 : s.1 = 0 := step_coord_zero (fun n => ⟨(hterm n).1, (hterm n).2.2.1⟩)
  have h2 : s.2 = 0 := step_coord_zero (fun n => ⟨(hterm n).2.1, (hterm n).2.2.2⟩)
  exact hs (Prod.ext h1 h2)

/-- On the unbounded grid, the beam is infinite exactly when no translated
point ever has a negative coordinate. -/
theorem unclipped_beam_infinite_iff (p s : Int × Int) :
    ¬beamTerminates .Unclipped p s ↔
      ∀ n : Nat, 0 ≤ p.1 + ((n : Int) + 1) * s.1 ∧ 0 ≤ p.2 + ((n : Int) + 1) * s.2 := by
  rw [beam_not_terminates_iff]
  simp only [inBounds, pointAt]

/-- Chebyshev offset enumeration, mirroring neighbors8 in neighbors.rs;
the assert on dist is modelled by returning none. -/
def neighbors8 (dist : Int) : Option (List (Int × Int)) :=
  if dist > 0 then
    some (((intRange (-dist) (dist + 1)).flatMap
        (fun r => (intRange (-dist) (dist + 1)).map (fun c => (r, c)))).filter
      (fun p => p ≠ (0, 0)))
  else none

theorem neighbors8_of_pos {dist : Int} (h : dist > 0) :
    neighbors8 dist =
      some ((windowRowMajor (-dist, -dist) (dist + 1, dist + 1)).filter
        (fun p => p ≠ (0, 0))) := by
  rw [neighbors8, if_pos h]
  rfl

theorem length_filter_ne {α : Type} [DecidableEq α] (a : α) :
    ∀ l : List α, l.Nodup → a ∈ l →
      (l.filter (fun p => p ≠ a)).length + 1 = l.length := by
  intro l
  induction l with
  | nil =>
      intro _ h
      cases h
  | cons b l ih =>
      intro hnd ha
      rcases hnd with _ | ⟨hb, hl⟩
      by_cases hba : b = a
      · subst hba
        have hfl : l.filter (fun p => p ≠ b) = l :=
          List.filter_eq_self.mpr (fun x hx => by simpa using fun he => (hb x hx) he.symm)
        rw [List.filter_cons_of_neg (by simp), hfl, List.length_cons]
      · have hal : a ∈ l := by
          rcases List.mem_cons.mp ha with h | h
          · exact absurd h.symm hba
          · exact h
        rw [List.filter_cons_of_pos (by simpa using hba), List.length_cons,
          List.length_cons, ← ih hl hal]

theorem toNat_sq_sub_one {m : Int} (hm : 0 ≤ m) :
    (m ^ 2 - 1).toNat = m.toNat * m.toNat - 1 := by
  obtain ⟨mn, rfl⟩ := Int.eq_ofNat_of_zero_le hm
  rw [sq, show ((mn : Int) * mn) = ((mn * mn : Nat) : Int) by push_cast; ring]
  simp only [Int.toNat_natCast]
  omega

/-- Lower-right corner of the neighbor window as the specification words
it: the row and column bounds clamped by the grid sizes when clipped, and
unclamped when unbounded. -/
def nbrStop (b : GridBox) (r c dist : Int) : Int × Int :=
  match b with
  | .ClipBox bc => (min bc.1 (r + dist + 1), min bc.2 (c + dist + 1))
  | .Unclipped => (r + dist + 1, c + dist + 1)

theorem neighborsList_eq (b : GridBox) (r c dist : Int)
    (h1 : 0 ≤ r) (h2 : 0 ≤ c)
    (h3 : ∀ bc : Int × Int, b = .ClipBox bc → r < bc.1 ∧ c < bc.2)
    (h4 : 0 < dist) :
    GridBox.neighborsList b (r, c) dist =
      some ((windowRowMajor (max 0 (r - dist), max 0 (c - dist)) (nbrStop b r c dist)).filter
        (fun q => q ≠ (r, c))) := by
  cases b with
  | ClipBox bc =>
      obtain ⟨rows, cols⟩ := bc
      have hin := h3 (rows, cols) rfl
      have hn : GridBox.neighbors (GridBox.ClipBox (rows, cols)) (r, c) dist =
          some { orig := (r, c),
                 loc := (max 0 (r - dist), max 0 (c - dist)),
                 start := (max 0 (r - dist), max 0 (c - dist)),
                 stop := (min rows (r + dist + 1), min cols (c + dist + 1)) } := by
        rw [GridBox.neighbors, if_pos ⟨h1, h2⟩]
        dsimp only
        rw [if_pos ⟨hin.1, hin.2⟩, Neighbors.new, if_pos h4]
      rw [GridBox.neighborsList, hn, Option.map_some',
        show Neighbors.toList
            { orig := (r, c),
              loc := (max 0 (r - dist), max 0 (c - dist)),
              start := (max 0 (r - dist), max 0 (c - dist)),
              stop := (min rows (r + dist + 1), min cols (c + dist + 1)) } =
          nrun r c (max 0 (c - dist)) (min rows (r + dist + 1)) (min cols (c + dist + 1))
            (max 0 (r - dist)) (max 0 (c - dist)) from rfl,
        nrun_eq_tailFrom, tailFrom_start_eq_window]
      rfl
  | Unclipped =>
      have hn : GridBox.neighbors GridBox.Unclipped (r, c) dist =
          some { orig := (r, c),
                 loc := (max 0 (r - dist), max 0 (c - dist)),
                 start := (max 0 (r - dist), max 0 (c - dist)),
                 stop := (r + dist + 1, c + dist + 1) } := by
        rw [GridBox.neighbors, if_pos ⟨h1, h2⟩]
        rw [Neighbors.new, if_pos h4]
      rw [GridBox.neighborsList, hn, Option.map_some',
        show Neighbors.toList
            { orig := (r, c),
              loc := (max 0 (r - dist), max 0 (c - dist)),
              start := (max 0 (r - dist), max 0 (c - dist)),
              stop := (r + dist + 1, c + dist + 1) } =
          nrun r c (max 0 (c - dist)) (r + dist + 1) (c + dist + 1)
            (max 0 (r - dist)) (max 0 (c - dist)) from rfl,
        nrun_eq_tailFrom, tailFrom_start_eq_window]
      rfl

/-- Claim C1: for every bound, every origin satisfying the neighbors
precondition, and every positive radius, the neighbors sequence is exactly
the row-major enumeration of the clamped square window with the origin
skipped; it is duplicate-free and contains precisely the window points
other than the origin. -/
theorem claim1 (b : GridBox) (r c dist : Int)
    (h1 : 0 ≤ r) (h2 : 0 ≤ c)
    (h3 : ∀ bc : Int × Int, b = .ClipBox bc → r < bc.1 ∧ c < bc.2)
    (h4 : 0 < dist) :
    ∃ L : List (Int × Int),
      GridBox.neighborsList b (r, c) dist = some L ∧
      L = (windowRowMajor (max 0 (r - dist), max 0 (c - dist))
            (nbrStop b r c dist)).filter (fun q => q ≠ (r, c)) ∧
      L.Nodup ∧
      ∀ q : Int × Int,
        q ∈ L ↔ (max 0 (r - dist) ≤ q.1 ∧ q.1 < (nbrStop b r c dist).1 ∧
          max 0 (c - dist) ≤ q.2 ∧ q.2 < (nbrStop b r c dist).2 ∧ q ≠ (r, c)) := by
  refine ⟨_, neighborsList_eq b r c dist h1 h2 h3 h4, rfl, ?_, ?_⟩
  · exact (nodup_windowRowMajor _ _).filter _
  · intro q
    simp only [List.mem_filter, mem_windowRowMajor, decide_eq_true_eq, ne_eq]
    constructor
    · rintro ⟨⟨ha, hb, hc, hd⟩, he⟩
      exact ⟨ha, hb, hc, hd, he⟩
    · rintro ⟨ha, hb, hc, hd, he⟩
      exact ⟨⟨ha, hb, hc, hd⟩, he⟩

/-- Witness for claim C1 at the doctest input: a 4 x 4 clipped grid, origin
(2, 0), radius 1. -/
theorem claim1_witness :
    ∃ L : List (Int × Int),
      GridBox.neighborsList (.ClipBox (4, 4)) (2, 0) 1 = some L ∧
      L = (windowRowMajor (max 0 (2 - 1), max 0 (0 - 1))
            (nbrStop (.ClipBox (4, 4)) 2 0 1)).filter (fun q => q ≠ (2, 0)) ∧
      L.Nodup ∧
      ∀ q : Int × Int,
        q ∈ L ↔ (max 0 (2 - 1) ≤ q.1 ∧ q.1 < (nbrStop (.ClipBox (4, 4)) 2 0 1).1 ∧
          max 0 (0 - 1) ≤ q.2 ∧ q.2 < (nbrStop (.ClipBox (4, 4)) 2 0 1).2 ∧ q ≠ (2, 0)) :=
  claim1 (.ClipBox (4, 4)) 2 0 1 (by decide) (by decide)
    (fun bc h => by
      injection h with h
      subst h
      exact ⟨by decide, by decide⟩)
    (by decide)

/-- Claim C7: the neighbors operation fails (modelled by none) exactly when
a precondition is violated: the radius must be positive, the origin must
have non-negative coordinates, and on a clipped grid the origin must be
strictly inside the bound. -/
theorem claim7 (b : GridBox) (p : Int × Int) (dist : Int) :
    (GridBox.neighbors b p dist).isSome ↔
      (0 < dist ∧ 0 ≤ p.1 ∧ 0 ≤ p.2 ∧
        ∀ bc : Int × Int, b = .ClipBox bc → p.1 < bc.1 ∧ p.2 < bc.2) := by
  cases b with
  | ClipBox bc =>
      obtain ⟨rows, cols⟩ := bc
      rw [GridBox.neighbors]
      constructor
      · intro h
        split_ifs at h with hloc hin
        · rw [Neighbors.new] at h
          split_ifs at h with hd
          · refine ⟨hd, hloc.1, hloc.2, ?_⟩
            intro bc2 hb
            injection hb with hb
            subst hb
            exact hin
          · simp at h
        · simp at h
        · simp at h
      · rintro ⟨hd, hr, hc, hin⟩
        have hin2 := hin (rows, cols) rfl
        rw [if_pos ⟨hr, hc⟩, if_pos hin2, Neighbors.new, if_pos hd]
        rfl
  | Unclipped =>
      rw [GridBox.neighbors]
      constructor
      · intro h
        split_ifs at h with hloc
        · rw [Neighbors.new] at h
          split_ifs at h with hd
          · exact ⟨hd, hloc.1, hloc.2, fun bc2 hb => by cases hb⟩
          · simp at h
        · simp at h
      · rintro ⟨hd, hr, hc, -⟩
        rw [if_pos ⟨hr, hc⟩, Neighbors.new, if_pos hd]
        rfl

/-- Claim C2: turn follows the table-lookup formula of the specification
(normalized count, the CCW and CW offset formulas, and indexing into the
fixed cyclic order), and any count congruent to 0 mod 4, including negative
ones, leaves the direction unchanged. -/
theorem claim2 (d : Dirn) (r : Rot) (k : Int) :
    d.turn r k = turnSpec d r k ∧ (k % 4 = 0 → d.turn r k = d) := by
  refine ⟨turn_eq_turnSpec d r k, fun h => ?_⟩
  rw [turn_emod d r k, h, turn_zero]

/-- Witness for claim C2 at direction Up, rotation CCW, count -8. -/
theorem claim2_witness :
    Dirn.Up.turn .CCW (-8) = turnSpec .Up .CCW (-8) ∧ Dirn.Up.turn .CCW (-8) = .Up :=
  ⟨(claim2 .Up .CCW (-8)).1, (claim2 .Up .CCW (-8)).2 (by decide)⟩

/-- Claim C6: turning counter-clockwise by k quarter turns and then
clockwise by k quarter turns returns the original direction, for every
signed k. -/
theorem claim6 (d : Dirn) (k : Int) : (d.turn .CCW k).turn .CW k = d := by
  rw [turn_emod d .CCW k, turn_emod (d.turn .CCW (k % 4)) .CW k]
  have hlo : 0 ≤ k % 4 := by omega
  have hhi : k % 4 < 4 := by omega
  interval_cases h : k % 4 <;> cases d <;> decide

/-- Claim C5: offset_clip returns the translated point exactly when it is
in-bounds and none otherwise, regardless of the source point; on the
unbounded grid it rejects exactly the translations with a negative
coordinate. -/
theorem claim5 (b : GridBox) (p d : Int × Int) :
    (b.clip p d =
      if inBounds b (p.1 + d.1, p.2 + d.2) then some (p.1 + d.1, p.2 + d.2) else none) ∧
    (GridBox.Unclipped.clip p d = none ↔ (p.1 + d.1 < 0 ∨ p.2 + d.2 < 0)) := by
  refine ⟨clip_eq b p d, ?_⟩
  rw [clip_eq]
  split_ifs with h
  · simp only [inBounds] at h
    simp only [reduceCtorEq, false_iff]
    omega
  · simp only [inBounds] at h
    simp only [true_iff]
    omega

/-- Counterexample for claim C8: the public constructor accepts negative
sizes and stores them unchanged, so a reachable clipped box can have
negative stored sizes. -/
theorem claim8_cex :
    GridBox.new (-1) (-1) = GridBox.ClipBox (-1, -1) ∧ ¬(0 ≤ (-1 : Int)) :=
  ⟨rfl, by decide⟩

/-- Claim C8 as amended: the constructor stores the given sizes unchanged,
so the stored sizes of a clipped box built from non-negative arguments are
non-negative. -/
theorem claim8_amended (rows cols : Int) (h1 : 0 ≤ rows) (h2 : 0 ≤ cols) :
    ∀ bc : Int × Int, GridBox.new rows cols = .ClipBox bc → 0 ≤ bc.1 ∧ 0 ≤ bc.2 := by
  intro bc h
  injection h with h
  subst h
  exact ⟨h1, h2⟩

/-- Witness for the amended claim C8 at sizes 3 and 5. -/
theorem claim8_amended_witness :
    0 ≤ (((3 : Int), (5 : Int))).1 ∧ 0 ≤ (((3 : Int), (5 : Int))).2 :=
  claim8_amended 3 5 (by decide) (by decide) (3, 5) rfl

/-- Claim C3: the beam sequence is exactly the repeated application of
offset_clip from the start point, the first failure ending the sequence;
in particular on a clipped 6 x 6 grid from (3, 2) with step (1, -1) it
yields (4, 1) then (5, 0) and then ends. -/
theorem claim3 (bnd : GridBox) (p s : Int × Int) (hs : s ≠ (0, 0)) :
    (GridBox.beam bnd p s = some { clip := bnd, loc := p, step := s } ∧
      ∀ n : Nat, Beam.nth { clip := bnd, loc := p, step := s } n = beamSpecSeq bnd p s n) ∧
    (Beam.nth { clip := GridBox.new 6 6, loc := (3, 2), step := (1, -1) } 0 = some (4, 1) ∧
      Beam.nth { clip := GridBox.new 6 6, loc := (3, 2), step := (1, -1) } 1 = some (5, 0) ∧
      Beam.nth { clip := GridBox.new 6 6, loc := (3, 2), step := (1, -1) } 2 = none) := by
  refine ⟨⟨?_, fun n => beam_nth_eq_specSeq bnd p s n⟩, by decide, by decide, by decide⟩
  rw [GridBox.beam, Beam.new, if_pos hs]

/-- Witness for claim C3 at the clipped 6 x 6 grid, start (3, 2), step
(1, -1). -/
theorem claim3_witness :
    (GridBox.beam (GridBox.new 6 6) (3, 2) (1, -1) =
        some { clip := GridBox.new 6 6, loc := (3, 2), step := (1, -1) } ∧
      ∀ n : Nat, Beam.nth { clip := GridBox.new 6 6, loc := (3, 2), step := (1, -1) } n =
        beamSpecSeq (GridBox.new 6 6) (3, 2) (1, -1) n) ∧
    (Beam.nth { clip := GridBox.new 6 6, loc := (3, 2), step := (1, -1) } 0 = some (4, 1) ∧
      Beam.nth { clip := GridBox.new 6 6, loc := (3, 2), step := (1, -1) } 1 = some (5, 0) ∧
      Beam.nth { clip := GridBox.new 6 6, loc := (3, 2), step := (1, -1) } 2 = none) :=
  claim3 (GridBox.new 6 6) (3, 2) (1, -1) (by decide)

/-- Counterexample for claim C4: on the unbounded grid a step that
immediately drives a coordinate negative gives a finite (empty) beam, so
finiteness is not equivalent to the bound being clipped. -/
theorem claim4_cex :
    ¬(beamTerminates .Unclipped (0, 0) (0, -1) ↔ isClipBox .Unclipped) := by
  intro h
  exact h.mp ⟨0, by decide⟩

/-- Claim C4 as amended: with a nonzero step, a clipped bound always gives
a finite beam, and on the unbounded bound the beam is infinite exactly when
no translated point ever has a negative coordinate. -/
theorem claim4_amended (p s : Int × Int) (hs : s ≠ (0, 0)) :
    (∀ bc : Int × Int, beamTerminates (.ClipBox bc) p s) ∧
    (¬beamTerminates .Unclipped p s ↔
      ∀ n : Nat, 0 ≤ p.1 + ((n : Int) + 1) * s.1 ∧ 0 ≤ p.2 + ((n : Int) + 1) * s.2) :=
  ⟨fun bc => clipbox_beam_terminates bc p s hs, unclipped_beam_infinite_iff p s⟩

/-- Witness for the amended claim C4 at start (0, 0), step (1, 0). -/
theorem claim4_amended_witness :
    (∀ bc : Int × Int, beamTerminates (.ClipBox bc) (0, 0) (1, 0)) ∧
    (¬beamTerminates .Unclipped (0, 0) (1, 0) ↔
      ∀ n : Nat, 0 ≤ (0 : Int) + ((n : Int) + 1) * 1 ∧ 0 ≤ (0 : Int) + ((n : Int) + 1) * 0) :=
  claim4_amended (0, 0) (1, 0) (by decide)

/-- Claim C10: beam construction checks only the step, never the start
point; the sequence never yields the start point itself; and when the very
first clip fails the sequence is empty from the first request on. -/
theorem claim10 (bnd : GridBox) (p s : Int × Int) (hs : s ≠ (0, 0)) :
    GridBox.beam bnd p s = some { clip := bnd, loc := p, step := s } ∧
    (∀ (n : Nat) (q : Int × Int),
      Beam.nth { clip := bnd, loc := p, step := s } n = some q → q ≠ p) ∧
    (bnd.clip p s = none →
      ∀ n : Nat, Beam.nth { clip := bnd, loc := p, step := s } n = none) := by
  refine ⟨by rw [GridBox.beam, Beam.new, if_pos hs], ?_, ?_⟩
  · intro n q hq
    rw [beam_nth_eq] at hq
    split_ifs at hq with hcond
    · obtain rfl : pointAt p s ((n : Int) + 1) = q := Option.some.inj hq
      intro hqp
      rw [Prod.ext_iff] at hqp
      simp only [pointAt] at hqp
      obtain ⟨e1, e2⟩ := hqp
      have hs1 : s.1 = 0 := by
        rcases mul_eq_zero.mp (show ((n : Int) + 1) * s.1 = 0 by omega) with h | h
        · omega
        · exact h
      have hs2 : s.2 = 0 := by
        rcases mul_eq_zero.mp (show ((n : Int) + 1) * s.2 = 0 by omega) with h | h
        · omega
        · exact h
      exact hs (Prod.ext hs1 hs2)
  · intro hclip n
    rw [clip_eq] at hclip
    split_ifs at hclip with hin
    rw [beam_nth_eq, if_neg]
    intro hall
    have h0 := hall 0 (by omega)
    simp only [pointAt] at h0
    norm_num at h0
    exact hin h0

/-- Witness for claim C10 on the unbounded grid, start (0, 0), step
(0, -1), whose first clip already fails. -/
theorem claim10_witness :
    GridBox.beam .Unclipped (0, 0) (0, -1) =
        some { clip := .Unclipped, loc := (0, 0), step := (0, -1) } ∧
    (∀ (n : Nat) (q : Int × Int),
      Beam.nth { clip := .Unclipped, loc := (0, 0), step := (0, -1) } n = some q →
        q ≠ (0, 0)) ∧
    (GridBox.Unclipped.clip (0, 0) (0, -1) = none →
      ∀ n : Nat, Beam.nth { clip := .Unclipped, loc := (0, 0), step := (0, -1) } n = none) :=
  claim10 .Unclipped (0, 0) (0, -1) (by decide)

/-- Claim C9: the Chebyshev offset enumeration fails exactly for
non-positive radius; for positive radius it yields the (2r+1)^2 - 1
offsets of the square of that radius without (0, 0), in row-major order
with no duplicates; and radius 1 gives exactly the 8 surrounding unit
offsets. -/
theorem claim9 (dist : Int) :
    ((neighbors8 dist).isSome ↔ 0 < dist) ∧
    (0 < dist →
      ∃ L : List (Int × Int), neighbors8 dist = some L ∧
        L.length = ((2 * dist + 1) ^ 2 - 1).toNat ∧
        List.Pairwise rowMajorLT L ∧
        (∀ q : Int × Int, q ∈ L ↔
          (-dist ≤ q.1 ∧ q.1 ≤ dist ∧ -dist ≤ q.2 ∧ q.2 ≤ dist ∧ q ≠ (0, 0)))) ∧
    neighbors8 1 =
      some [(-1, -1), (-1, 0), (-1, 1), (0, -1), (0, 1), (1, -1), (1, 0), (1, 1)] := by
  refine ⟨?_, ?_, by decide⟩
  · rw [neighbors8]
    split_ifs with h
    · simpa using h
    · simpa using h
  · intro h
    refine ⟨_, neighbors8_of_pos h, ?_, ?_, ?_⟩
    · have hmem : ((0, 0) : Int × Int) ∈
          windowRowMajor (-dist, -dist) (dist + 1, dist + 1) := by
        rw [mem_windowRowMajor]
        refine ⟨?_, ?_, ?_, ?_⟩ <;> omega
      have hlen := length_filter_ne ((0, 0) : Int × Int) _
        (nodup_windowRowMajor (-dist, -dist) (dist + 1, dist + 1)) hmem
      have hwin := length_windowRowMajor (-dist, -dist) (dist + 1, dist + 1)
      rw [show (dist + 1 - -dist).toNat = (2 * dist + 1).toNat by omega] at hwin
      rw [toNat_sq_sub_one (by omega), ← hwin]
      omega
    · exact (pairwise_windowRowMajor _ _).filter _
    · intro q
      simp only [List.mem_filter, mem_windowRowMajor, decide_eq_true_eq, ne_eq]
      constructor
      · rintro ⟨⟨ha, hb, hc, hd⟩, he⟩
        exact ⟨by omega, by omega, by omega, by omega, he⟩
      · rintro ⟨ha, hb, hc, hd, he⟩
        refine ⟨⟨?_, ?_, ?_, ?_⟩, he⟩ <;> omega

/-- Witness for claim C9 at radius 1. -/
theorem claim9_witness :
    ∃ L : List (Int × Int), neighbors8 1 = some L ∧
      L.length = ((2 * (1 : Int) + 1) ^ 2 - 1).toNat ∧
      List.Pairwise rowMajorLT L ∧
      (∀ q : Int × Int, q ∈ L ↔
        (-1 ≤ q.1 ∧ q.1 ≤ 1 ∧ -1 ≤ q.2 ∧ q.2 ≤ 1 ∧ q ≠ (0, 0))) :=
  (claim9 1).2.1 (by decide)

end Aoc
